import Mathlib

/-!
Verification of the weekly football-prediction contest engine (`new.py`).

The development embeds the pure computational core of the source file:
the scoring function `compute_points`, the submission-window gate
`is_forecast_open`, the recompute pass `calculate_points`, the forecast
uniqueness constraint of the `forecasts` table, the SQL `RANK()`-based
rank lookups, the monthly publish-and-reset handler, and the new-slate
entry flow.  Database tables are embedded as Lean lists of row
structures; each SQL statement of the source is embedded as a list
transformation whose doc comment names the statement it models.
-/

/-- Python-style split of a character list on a separator character,
modelling `str.split('-')` as used by `compute_points` and
`process_forecast_score`: `"".split(c) = [""]`, and every occurrence of
the separator starts a new (possibly empty) chunk. -/
def pySplit (sep : Char) : List Char → List (List Char)
  | [] => [[]]
  | c :: rest =>
    match pySplit sep rest with
    | [] => [[]]
    | g :: gs => if c = sep then [] :: g :: gs else (c :: g) :: gs

/-- Decimal digit test for ASCII characters (`'0'` through `'9'`). -/
def isDigitChar (c : Char) : Bool := '0' ≤ c && c ≤ '9'

/-- Value of one decimal digit character. -/
def digitVal (c : Char) : Nat := c.toNat - '0'.toNat

/-- Parse a nonempty all-digit character list as a natural number. -/
def pyDigits (l : List Char) : Option Nat :=
  if l = [] then none
  else if l.all isDigitChar then some (l.foldl (fun acc c => acc * 10 + digitVal c) 0)
  else none

/-- Parse of one chunk as a Python `int(...)` call: an optional single
leading sign followed by decimal digits.  (Python's `int` additionally
strips whitespace and allows `_` digit separators; those forms never
occur in this application, whose inputs are validated with `isdigit`
before storage, and are not modelled.) -/
def pyInt (l : List Char) : Option Int :=
  match l with
  | '+' :: rest => (pyDigits rest).map (fun n => (n : Int))
  | '-' :: rest => (pyDigits rest).map (fun n => -(n : Int))
  | _ => (pyDigits l).map (fun n => (n : Int))

/-- Parse a score string as a `home-away` pair, modelling the body of
`compute_points`: split on `'-'`, require exactly two chunks, and
convert each chunk with `int(...)`; any failure (modelled as `none`
here, an exception caught by the `try/except` in the source) yields no
pair. -/
def parseScorePair (s : String) : Option (Int × Int) :=
  match pySplit '-' s.data with
  | [a, b] =>
    match pyInt a, pyInt b with
    | some x, some y => some (x, y)
    | _, _ => none
  | _ => none

/-- Lower-casing of one character, modelling Python `str.lower()` on the
alphabets this program uses: ASCII `A`-`Z` and Cyrillic `А`-`Я`/`Ё`. -/
def pyCharLower (c : Char) : Char :=
  if 'A' ≤ c ∧ c ≤ 'Z' then Char.ofNat (c.toNat + 32)
  else if 'А' ≤ c ∧ c ≤ 'Я' then Char.ofNat (c.toNat + 32)
  else if c = 'Ё' then 'ё'
  else c

/-- Lower-casing of a string (`str.lower()`), used by the `"тп"`
void-sentinel test of `compute_points`. -/
def pyLower (s : String) : String := ⟨s.data.map pyCharLower⟩

/-- Outcome sign of a score pair, as computed in `compute_points`:
`1` for a home win, `0` for a draw, `-1` for an away win. -/
def outcomeSign (home away : Int) : Int :=
  if home > away then 1 else if home = away then 0 else -1

/-- Tier computation of `compute_points` once both pairs are parsed
(source lines 422-434): `0` when the outcomes differ, otherwise `1`,
upgraded to `3` when the goal differentials agree, upgraded further to
`5` when the pairs agree exactly. -/
def computeTier (ah aw fh fw : Int) : Int :=
  if outcomeSign ah aw ≠ outcomeSign fh fw then 0
  else if (ah - aw).natAbs = (fh - fw).natAbs then
    if ah = fh ∧ aw = fw then 5 else 3
  else 1

/-- The scoring function `compute_points(actual, forecast)` of the
source: `0` for the void sentinel `"тп"` (case-insensitively), `0` when
either argument fails to parse as a `home-away` pair, and otherwise the
tier of `computeTier`. -/
def compute_points (actual forecast : String) : Int :=
  if pyLower actual = "тп" then 0
  else
    match parseScorePair actual, parseScorePair forecast with
    | some (ah, aw), some (fh, fw) => computeTier ah aw fh fw
    | _, _ => 0

/-- A wall-clock instant as `is_forecast_open` observes it:
`weekday` follows Python `datetime.weekday()` (0 = Monday .. 6 =
Sunday), and the time of day is the `(hour, minute, second, micro)`
tuple of `datetime.time`. -/
structure LocalTime where
  weekday : Nat
  hour : Nat
  minute : Nat
  second : Nat
  micro : Nat
deriving DecidableEq

/-- Lexicographic comparison of two `datetime.time` values, modelling
Python's tuple-style ordering of `time` objects. -/
def pyTimeLe (h1 m1 s1 u1 h2 m2 s2 u2 : Nat) : Bool :=
  if h1 = h2 then
    if m1 = m2 then
      if s1 = s2 then decide (u1 ≤ u2)
      else decide (s1 < s2)
    else decide (m1 < m2)
  else decide (h1 < h2)

/-- The submission-window gate `is_forecast_open` of the source, as a
pure function of the observed wall-clock instant: open Monday through
Thursday, open on Friday while `now.time() <= time(23, 0)`, closed
otherwise. -/
def is_forecast_open (now : LocalTime) : Bool :=
  if now.weekday < 4 then true
  else if now.weekday = 4 && pyTimeLe now.hour now.minute now.second now.micro 23 0 0 0 then true
  else false

/-- The reward tiers exactly as the specification words them (§4.3 /
claim C1): `0` when the outcome signs differ; otherwise `5` when the
pairs are exactly equal; otherwise `3` when the goal differentials are
equal; otherwise `1`. -/
def specScore (ah aw fh fw : Int) : Int :=
  if outcomeSign ah aw ≠ outcomeSign fh fw then 0
  else if ah = fh ∧ aw = fw then 5
  else if (ah - aw).natAbs = (fh - fw).natAbs then 3
  else 1

lemma pySplit_ne_nil (sep : Char) (l : List Char) : pySplit sep l ≠ [] := by
  cases l with
  | nil => simp [pySplit]
  | cons c rest =>
    simp only [pySplit]
    rcases h : pySplit sep rest with _ | ⟨g, gs⟩
    · simp
    · dsimp only; split <;> simp

lemma pySplit_length (sep : Char) (l : List Char) :
    (pySplit sep l).length = l.count sep + 1 := by
  induction l with
  | nil => simp [pySplit, List.count]
  | cons c rest ih =>
    cases h : pySplit sep rest with
    | nil => exact absurd h (pySplit_ne_nil sep rest)
    | cons g gs =>
      rw [h] at ih
      simp only [pySplit, h, List.count_cons]
      split <;> rename_i hc <;> simp_all

lemma parseScorePair_hyphen {s : String} {p : Int × Int}
    (h : parseScorePair s = some p) : '-' ∈ s.data := by
  unfold parseScorePair at h
  have hlen : (pySplit '-' s.data).length = 2 := by
    rcases hs : pySplit '-' s.data with _ | ⟨a, _ | ⟨b, _ | ⟨c, t⟩⟩⟩ <;>
      simp [hs] at h ⊢
  rw [pySplit_length] at hlen
  have : 0 < s.data.count '-' := by omega
  exact List.count_pos_iff.mp this

lemma parse_ne_sentinel {s : String} {p : Int × Int}
    (h : parseScorePair s = some p) : pyLower s ≠ "тп" := by
  intro heq
  have hd : s.data.map pyCharLower = ['т', 'п'] := congrArg String.data heq
  have hm : pyCharLower '-' ∈ s.data.map pyCharLower :=
    List.mem_map_of_mem _ (parseScorePair_hyphen h)
  rw [hd] at hm
  revert hm; decide

lemma computeTier_eq_specScore (ah aw fh fw : Int) :
    computeTier ah aw fh fw = specScore ah aw fh fw := by
  simp only [computeTier, specScore, outcomeSign]
  split_ifs <;> first | rfl | omega

lemma outcomeSign_swap (a b : Int) : outcomeSign b a = -outcomeSign a b := by
  unfold outcomeSign; split_ifs <;> omega

lemma computeTier_swap (ah aw fh fw : Int) :
    computeTier aw ah fw fh = computeTier ah aw fh fw := by
  unfold computeTier
  rw [outcomeSign_swap ah aw, outcomeSign_swap fh fw]
  have h1 : (aw - ah).natAbs = (ah - aw).natAbs := by omega
  have h2 : (fw - fh).natAbs = (fh - fw).natAbs := by omega
  rw [h1, h2]
  split_ifs <;> first | rfl | omega

lemma computeTier_range (ah aw fh fw : Int) :
    computeTier ah aw fh fw = 0 ∨ computeTier ah aw fh fw = 1 ∨
    computeTier ah aw fh fw = 3 ∨ computeTier ah aw fh fw = 5 := by
  simp only [computeTier, outcomeSign]
  split_ifs <;> simp

lemma compute_points_parsed {a f : String} {ah aw fh fw : Int}
    (ha : parseScorePair a = some (ah, aw))
    (hf : parseScorePair f = some (fh, fw)) :
    compute_points a f = computeTier ah aw fh fw := by
  unfold compute_points
  rw [if_neg (parse_ne_sentinel ha), ha, hf]

/-- C1: for every actual and predicted input that both parse as
home-away integer pairs, `compute_points` returns exactly the
specification's reward tiers (`specScore`): `0` when the outcome signs
differ, otherwise `5` on an exact pair match, otherwise `3` on a
matching goal differential, otherwise `1`; in particular
`score("2-1","2-1") = 5`, `score("3-1","2-0") = 3`,
`score("2-0","5-1") = 1` and `score("2-1","1-2") = 0`. -/
theorem compute_points_tier_spec :
    (∀ (a f : String) (ah aw fh fw : Int),
      parseScorePair a = some (ah, aw) → parseScorePair f = some (fh, fw) →
      compute_points a f = specScore ah aw fh fw)
    ∧ compute_points "2-1" "2-1" = 5
    ∧ compute_points "3-1" "2-0" = 3
    ∧ compute_points "2-0" "5-1" = 1
    ∧ compute_points "2-1" "1-2" = 0 := by
  refine ⟨fun a f ah aw fh fw ha hf => ?_, by decide, by decide, by decide, by decide⟩
  rw [compute_points_parsed ha hf, computeTier_eq_specScore]

/-- Witness for C1: the general tier statement applied at the concrete
pair `("3-1", "2-0")`, whose tier evaluates to `3`. -/
theorem compute_points_tier_spec_witness : compute_points "3-1" "2-0" = 3 :=
  (compute_points_tier_spec.1 "3-1" "2-0" 3 1 2 0 (by decide) (by decide)).trans (by decide)

/-- C2: `compute_points` is total and fail-soft: it returns `0` whenever
the actual argument lower-cases to the void sentinel `"тп"` (regardless
of the predicted argument), and `0` whenever either argument fails to
parse as a `home-away` pair of integers separated by one hyphen; in
particular `score("тп","2-1") = 0` and `score("2-1","abc") = 0`. -/
theorem compute_points_failsoft :
    (∀ a f : String, pyLower a = "тп" → compute_points a f = 0)
    ∧ (∀ a f : String,
        parseScorePair a = none ∨ parseScorePair f = none → compute_points a f = 0)
    ∧ compute_points "тп" "2-1" = 0
    ∧ compute_points "2-1" "abc" = 0 := by
  refine ⟨fun a f h => ?_, fun a f h => ?_, by decide, by decide⟩
  · unfold compute_points
    rw [if_pos h]
  · unfold compute_points
    split
    · rfl
    · rcases h with h | h <;> rw [h]
      rcases hpa : parseScorePair a with _ | ⟨ah, aw⟩ <;> rfl

/-- Witness for C2: the sentinel clause applied at the upper-case
sentinel `"ТП"` with a well-formed prediction. -/
theorem compute_points_failsoft_witness : compute_points "ТП" "9-9" = 0 :=
  compute_points_failsoft.1 "ТП" "9-9" (by decide)

/-- C9: for all actual/predicted pairs that parse as home-away integer
pairs the score lies in `{0, 1, 3, 5}`, and the score is invariant
under swapping home and away consistently in both arguments: whenever
`a2`/`f2` parse to the swapped pairs of `a`/`f`, the scores agree. -/
theorem compute_points_range_swap :
    (∀ (a f : String) (ah aw fh fw : Int),
      parseScorePair a = some (ah, aw) → parseScorePair f = some (fh, fw) →
      compute_points a f = 0 ∨ compute_points a f = 1 ∨
      compute_points a f = 3 ∨ compute_points a f = 5)
    ∧ (∀ (a f a2 f2 : String) (ah aw fh fw : Int),
      parseScorePair a = some (ah, aw) → parseScorePair f = some (fh, fw) →
      parseScorePair a2 = some (aw, ah) → parseScorePair f2 = some (fw, fh) →
      compute_points a2 f2 = compute_points a f) := by
  constructor
  · intro a f ah aw fh fw ha hf
    rw [compute_points_parsed ha hf]
    exact computeTier_range ah aw fh fw
  · intro a f a2 f2 ah aw fh fw ha hf ha2 hf2
    rw [compute_points_parsed ha hf, compute_points_parsed ha2 hf2, computeTier_swap]

/-- Witness for C9: swap invariance applied at `("2-1", "3-1")` and its
home/away-swapped pair `("1-2", "1-3")`; both score `1`. -/
theorem compute_points_range_swap_witness :
    compute_points "1-2" "1-3" = compute_points "2-1" "3-1" :=
  compute_points_range_swap.2 "2-1" "3-1" "1-2" "1-3" 2 1 3 1
    (by decide) (by decide) (by decide) (by decide)

/-- C3: the submission-window gate is a pure function of wall-clock
time: open Monday through Thursday, open on Friday strictly before
23:00, closed on Friday strictly after 23:00, and closed all of
Saturday and Sunday; in particular Friday 22:59:59 is open, Friday
23:00:01 is closed, Saturday any time is closed, and Monday 00:00:01
is open. -/
theorem forecast_window_schedule :
    (∀ now : LocalTime, now.weekday < 4 → is_forecast_open now = true)
    ∧ (∀ now : LocalTime, now.weekday = 4 → now.hour < 23 → is_forecast_open now = true)
    ∧ (∀ now : LocalTime, now.weekday = 4 →
        (23 < now.hour ∨ (now.hour = 23 ∧ (0 < now.minute ∨ 0 < now.second ∨ 0 < now.micro))) →
        is_forecast_open now = false)
    ∧ (∀ now : LocalTime, now.weekday = 5 ∨ now.weekday = 6 → is_forecast_open now = false)
    ∧ is_forecast_open ⟨4, 22, 59, 59, 0⟩ = true
    ∧ is_forecast_open ⟨4, 23, 0, 1, 0⟩ = false
    ∧ (∀ h m s u : Nat, is_forecast_open ⟨5, h, m, s, u⟩ = false)
    ∧ is_forecast_open ⟨0, 0, 0, 1, 0⟩ = true := by
  refine ⟨fun now h => ?_, fun now h h23 => ?_, fun now h hafter => ?_,
    fun now h => ?_, by decide, by decide, fun h m s u => ?_, by decide⟩
  · simp [is_forecast_open, h]
  · simp only [is_forecast_open, pyTimeLe, h]
    split_ifs <;> simp_all <;> omega
  · simp only [is_forecast_open, pyTimeLe, h]
    split_ifs <;> simp_all <;> omega
  · rcases h with h | h <;> simp [is_forecast_open, pyTimeLe, h]
  · simp [is_forecast_open, pyTimeLe]

/-- Witness for C3: the Friday-before-23:00 clause applied at Friday
22:30:00. -/
theorem forecast_window_schedule_witness : is_forecast_open ⟨4, 22, 30, 0, 0⟩ = true :=
  forecast_window_schedule.2.1 ⟨4, 22, 30, 0, 0⟩ rfl (by decide)

/-- C10: at exactly Friday 23:00:00.000000 the gate reports open — the
comparison `now.time() <= time(23, 0)` makes the closing boundary
inclusive. -/
theorem friday_2300_inclusive :
    ∀ now : LocalTime, now.weekday = 4 → now.hour = 23 → now.minute = 0 →
      now.second = 0 → now.micro = 0 → is_forecast_open now = true := by
  intro now hw hh hm hs hu
  simp [is_forecast_open, pyTimeLe, hw, hh, hm, hs, hu]

/-- Witness for C10: the boundary instant Friday 23:00:00.000000
itself. -/
theorem friday_2300_inclusive_witness : is_forecast_open ⟨4, 23, 0, 0, 0⟩ = true :=
  friday_2300_inclusive ⟨4, 23, 0, 0, 0⟩ rfl rfl rfl rfl rfl

/-- One row of the `users` table: `telegram_id BIGINT UNIQUE`, `name`,
`nickname` (the Telegram username, possibly absent) and `points
INTEGER DEFAULT 0`. -/
structure UserRow where
  telegram_id : Int
  name : String
  nickname : Option String
  points : Int
deriving DecidableEq

/-- One row of the `forecasts` table: `(telegram_id, week, match_index,
forecast)`, subject to `UNIQUE(telegram_id, week, match_index)`. -/
structure ForecastRow where
  telegram_id : Int
  week : Int
  match_index : Int
  forecast : String
deriving DecidableEq

/-- One row of the `matches` table: `match_index` (primary key),
`match_name`, and the nullable `result` text. -/
structure MatchRow where
  match_index : Int
  match_name : String
  result : Option String
deriving DecidableEq

/-- One row of the `monthleaders` table: `telegram_id BIGINT UNIQUE`,
`name`, `nickname` and `points`.  `name`/`nickname` are nullable text
copied from `users` at insertion time. -/
structure MLRow where
  telegram_id : Int
  name : Option String
  nickname : Option String
  points : Int
deriving DecidableEq

/-- The key protected by the `UNIQUE(telegram_id, week, match_index)`
constraint of the `forecasts` table (`init_db`). -/
def forecastKey (f : ForecastRow) : Int × Int × Int :=
  (f.telegram_id, f.week, f.match_index)

/-- The plain `INSERT INTO forecasts` of `process_forecast_score`,
executed against the `UNIQUE(telegram_id, week, match_index)`
constraint: the insert fails (raising in the source, `Except.error`
here) when a row with the same key already exists, and otherwise
appends the new row. -/
def insertForecast (fs : List ForecastRow) (f : ForecastRow) :
    Except Unit (List ForecastRow) :=
  if fs.any (fun g => forecastKey g == forecastKey f) then .error ()
  else .ok (fs ++ [f])

/-- A sequence of submission attempts (dialog retries, duplicated
deliveries): each attempt is inserted if the constraint admits it and
leaves the table unchanged if it fails. -/
def submitAttempts (fs : List ForecastRow) (attempts : List ForecastRow) :
    List ForecastRow :=
  attempts.foldl
    (fun s a => match insertForecast s a with | .ok s2 => s2 | .error _ => s) fs

/-- The `SELECT * FROM forecasts WHERE telegram_id=$1 AND week=$2` guard
of `handle_make_forecast`. -/
def hasWeekForecast (fs : List ForecastRow) (t w : Int) : Bool :=
  fs.any (fun f => f.telegram_id == t && f.week == w)

/-- The entry decision of `handle_make_forecast`: the prediction dialog
starts only when the window is open, the slate is nonempty, and the
participant has no forecast stored for the current week. -/
def handle_make_forecast (openNow : Bool) (ms : List MatchRow)
    (fs : List ForecastRow) (t w : Int) : Bool :=
  openNow && !ms.isEmpty && !hasWeekForecast fs t w

lemma insertForecast_nodup {fs : List ForecastRow} {f : ForecastRow}
    {fs2 : List ForecastRow} (hnd : (fs.map forecastKey).Nodup)
    (h : insertForecast fs f = .ok fs2) : (fs2.map forecastKey).Nodup := by
  unfold insertForecast at h
  split at h
  · cases h
  · rename_i hany
    cases h
    have hnot : forecastKey f ∉ fs.map forecastKey := by
      intro hmem
      rcases List.mem_map.mp hmem with ⟨g, hg, hk⟩
      refine hany ?_
      simp only [List.any_eq_true, beq_iff_eq]
      exact ⟨g, hg, hk⟩
    simp [List.nodup_append, hnd, hnot]

/-- C5: at most one forecast row exists per (participant, week, match
slot) after any sequence of submission attempts; a duplicate attempt
for an already-present key fails without touching the table; and a
participant with any forecast already stored for the current week is
refused the prediction dialog entirely. -/
theorem forecast_uniqueness :
    (∀ (fs attempts : List ForecastRow), (fs.map forecastKey).Nodup →
      ((submitAttempts fs attempts).map forecastKey).Nodup)
    ∧ (∀ (fs : List ForecastRow) (f : ForecastRow),
        (∃ g ∈ fs, forecastKey g = forecastKey f) →
        insertForecast fs f = .error ())
    ∧ (∀ (o : Bool) (ms : List MatchRow) (fs : List ForecastRow) (t w : Int),
        hasWeekForecast fs t w = true → handle_make_forecast o ms fs t w = false) := by
  refine ⟨fun fs attempts => ?_, fun fs f h => ?_, fun o ms fs t w h => ?_⟩
  · induction attempts generalizing fs with
    | nil => intro h; exact h
    | cons a rest ih =>
      intro hnd
      simp only [submitAttempts, List.foldl_cons]
      rcases hins : insertForecast fs a with _ | fs2
      · exact ih fs hnd
      · exact ih fs2 (insertForecast_nodup hnd hins)
  · unfold insertForecast
    rw [if_pos]
    simp only [List.any_eq_true, beq_iff_eq]
    exact h
  · simp [handle_make_forecast, h]

/-- Witness for C5: a duplicate submission for an already-stored
(participant, week, slot) triple fails, and a participant with a stored
forecast is refused the dialog. -/
theorem forecast_uniqueness_witness :
    insertForecast [⟨7, 14, 1, "2-1"⟩] ⟨7, 14, 1, "0-0"⟩ = .error ()
    ∧ handle_make_forecast true [⟨1, "m", none⟩] [⟨7, 14, 1, "2-1"⟩] 7 14 = false :=
  ⟨forecast_uniqueness.2.1 [⟨7, 14, 1, "2-1"⟩] ⟨7, 14, 1, "0-0"⟩
      ⟨⟨7, 14, 1, "2-1"⟩, by decide, by decide⟩,
    forecast_uniqueness.2.2 true [⟨1, "m", none⟩] [⟨7, 14, 1, "2-1"⟩] 7 14 (by decide)⟩

/-- The single-participant rank lookup used by `handle_leaderboard`,
`handle_month_leaderboard` and the monthly part of `handle_my_profile`:
the SQL `RANK() OVER (ORDER BY points DESC)` subquery filtered at one
`telegram_id`.  A board row is a `(telegram_id, points)` pair; `RANK()`
assigns `1 +` the number of rows strictly ahead, i.e. with strictly
greater points. -/
def rank_lookup (board : List (Int × Int)) (t : Int) : Option Nat :=
  (board.find? (fun r => r.1 == t)).map
    (fun row => 1 + board.countP (fun r => row.2 < r.2))

/-- The all-time rank computation of `handle_my_profile` (source lines
214-220): walk the rows fetched with `ORDER BY points DESC` and count
positions until the participant's row is found. -/
def overallRank (rows : List UserRow) (t : Int) : Nat :=
  match rows with
  | [] => 1
  | r :: rest => if r.telegram_id == t then 1 else 1 + overallRank rest t

/-- The `(telegram_id, points)` board read from the `users` table. -/
def usersBoard (users : List UserRow) : List (Int × Int) :=
  users.map (fun u => (u.telegram_id, u.points))

/-- The `(telegram_id, points)` board read from the `monthleaders`
table. -/
def mlBoard (ml : List MLRow) : List (Int × Int) :=
  ml.map (fun r => (r.telegram_id, r.points))

/-- Counterexample to C6 as stated.  On a board with two participants
tied at 10 points and one at 5, the `RANK()`-based lookup gives both
tied participants rank 1 — the same rank, not adjacent ranks — and the
loop-based all-time rank of `handle_my_profile` gives the second tied
participant rank 2, which differs from `1 +` its
strictly-greater-count 0; the fetched order shown is a valid
`ORDER BY points DESC` result (points are weakly decreasing). -/
theorem rank_lookup_tie_counterexample :
    rank_lookup [(1, 10), (2, 10), (3, 5)] 1 = some 1
    ∧ rank_lookup [(1, 10), (2, 10), (3, 5)] 2 = some 1
    ∧ ¬ rank_lookup [(1, 10), (2, 10), (3, 5)] 1 ≠ rank_lookup [(1, 10), (2, 10), (3, 5)] 2
    ∧ overallRank [⟨1, "A", none, 10⟩, ⟨2, "B", none, 10⟩, ⟨3, "C", none, 5⟩] 2 = 2
    ∧ 2 ≠ 1 + ([(1, 10), (2, 10), (3, 5)].countP (fun r => 10 < r.2))
    ∧ List.Pairwise (fun a b => b.points ≤ a.points)
        [⟨1, "A", none, 10⟩, ⟨2, "B", none, 10⟩, (⟨3, "C", none, 5⟩ : UserRow)] := by
  refine ⟨by decide, by decide, by decide, by decide, by decide, ?_⟩
  decide

/-- C6 amended: the `RANK()`-based lookups return `1 +` the count of
rows with strictly greater points; a participant with the unique
maximum gets rank 1; two participants with equal points get the same
rank (not adjacent ranks); a participant strictly below a group whose
strictly-greater rows number `k` ranks `k + 1`; and the all-time rank
of `handle_my_profile` is instead the 1-based position of the
participant in the points-descending fetch order, so tied participants
there occupy adjacent positions in fetch order. -/
theorem rank_lookup_props :
    (∀ (board : List (Int × Int)) (t : Int) (row : Int × Int),
      board.find? (fun r => r.1 == t) = some row →
      rank_lookup board t = some (1 + board.countP (fun r => row.2 < r.2)))
    ∧ (∀ (board : List (Int × Int)) (t : Int) (row : Int × Int),
      board.find? (fun r => r.1 == t) = some row →
      (∀ r ∈ board, r ≠ row → r.2 < row.2) →
      rank_lookup board t = some 1)
    ∧ (∀ (board : List (Int × Int)) (t1 t2 : Int) (r1 r2 : Int × Int),
      board.find? (fun r => r.1 == t1) = some r1 →
      board.find? (fun r => r.1 == t2) = some r2 →
      r1.2 = r2.2 → rank_lookup board t1 = rank_lookup board t2)
    ∧ (∀ (board : List (Int × Int)) (t : Int) (row : Int × Int) (p : Int) (k : Nat),
      board.find? (fun r => r.1 == t) = some row →
      (∀ r ∈ board, row.2 < r.2 → r.2 = p) →
      board.countP (fun r => row.2 < r.2) = k →
      rank_lookup board t = some (k + 1))
    ∧ (∀ (rows : List UserRow) (t : Int),
      overallRank rows t = 1 + (rows.takeWhile (fun r => !(r.telegram_id == t))).length) := by
  refine ⟨fun board t row hf => ?_, fun board t row hf hmax => ?_,
    fun board t1 t2 r1 r2 h1 h2 hp => ?_, fun board t row p k hf hlead hk => ?_,
    fun rows t => ?_⟩
  · simp [rank_lookup, hf]
  · have hz : board.countP (fun r => row.2 < r.2) = 0 := by
      rw [List.countP_eq_zero]
      intro r hr
      by_cases hrr : r = row
      · subst hrr; simp
      · have := hmax r hr hrr
        simp only [decide_eq_true_eq]
        omega
    simp [rank_lookup, hf, hz]
  · simp only [rank_lookup, h1, h2, Option.map_some']
    rw [hp]
  · simp [rank_lookup, hf, hk, Nat.add_comm]
  · induction rows with
    | nil => rfl
    | cons r rest ih =>
      by_cases h : r.telegram_id == t <;>
        simp [overallRank, List.takeWhile, h, ih] <;> omega

/-- Witness for C6 amended: the equal-points clause applied on the tied
board, giving both tied participants the same rank. -/
theorem rank_lookup_props_witness :
    rank_lookup [(1, 10), (2, 10)] 1 = rank_lookup [(1, 10), (2, 10)] 2 :=
  rank_lookup_props.2.2.1 [(1, 10), (2, 10)] 1 2 (1, 10) (2, 10)
    (by decide) (by decide) rfl

/-- The `SELECT telegram_id, name, points FROM monthleaders ORDER BY
points DESC LIMIT 10` read of `admin_publish_results`: the board sorted
by descending points (stably), truncated to ten rows. -/
def monthTop10 (ml : List MLRow) : List MLRow :=
  (List.insertionSort (fun a b => b.points ≤ a.points) ml).take 10

/-- The `UPDATE monthleaders SET points = 0` reset of
`admin_publish_results`. -/
def resetMonthPoints (ml : List MLRow) : List MLRow :=
  ml.map (fun r => { r with points := 0 })

/-- The monthly publish-and-reset handler `admin_publish_results`:
reads the top-10 snapshot of the monthly board, then zeroes every
monthly total; the pair is (returned snapshot, board after reset). -/
def admin_publish_results (ml : List MLRow) : List MLRow × List MLRow :=
  (monthTop10 ml, resetMonthPoints ml)

/-- An eleven-row monthly board used to refute the "full ranked list"
part of C7. -/
def elevenRowBoard : List MLRow :=
  [⟨1, none, none, 0⟩, ⟨2, none, none, 0⟩, ⟨3, none, none, 0⟩,
   ⟨4, none, none, 0⟩, ⟨5, none, none, 0⟩, ⟨6, none, none, 0⟩,
   ⟨7, none, none, 0⟩, ⟨8, none, none, 0⟩, ⟨9, none, none, 0⟩,
   ⟨10, none, none, 0⟩, ⟨11, none, none, 0⟩]

/-- Counterexample to C7 as stated: the publish operation does not read
the full ranked monthly list — it reads only the top ten rows
(`LIMIT 10`), so on an eleven-row board one monthly row is missing from
the returned snapshot. -/
theorem publish_top10_counterexample :
    (⟨11, none, none, 0⟩ : MLRow) ∈ elevenRowBoard
    ∧ (⟨11, none, none, 0⟩ : MLRow) ∉ (admin_publish_results elevenRowBoard).1 := by
  constructor
  · decide
  · decide

/-- C7 amended: `admin_publish_results` reads the top-10 ranked rows of
the monthly board (the full board only when it has at most ten rows),
and after the call every monthly total reads 0 while the snapshot it
returned reflects the pre-reset rows; the reset drops no monthly row
(the `telegram_id` column is preserved row-for-row). -/
theorem publish_reset_props :
    (∀ ml : List MLRow, ∀ r ∈ (admin_publish_results ml).2, r.points = 0)
    ∧ (∀ ml : List MLRow,
        ((admin_publish_results ml).2).map (fun r => r.telegram_id)
          = ml.map (fun r => r.telegram_id))
    ∧ (∀ ml : List MLRow, ((admin_publish_results ml).2).length = ml.length)
    ∧ (∀ ml : List MLRow, ∀ r ∈ (admin_publish_results ml).1, r ∈ ml)
    ∧ (∀ ml : List MLRow, (admin_publish_results ml).1.length = min 10 ml.length)
    ∧ (∀ ml : List MLRow, ml.length ≤ 10 →
        ∀ r ∈ ml, r ∈ (admin_publish_results ml).1) := by
  refine ⟨fun ml r hr => ?_, fun ml => ?_, fun ml => ?_, fun ml r hr => ?_,
    fun ml => ?_, fun ml hlen r hr => ?_⟩
  · simp only [admin_publish_results, resetMonthPoints, List.mem_map] at hr
    rcases hr with ⟨s, _, rfl⟩
    rfl
  · simp [admin_publish_results, resetMonthPoints, List.map_map, Function.comp]
  · simp [admin_publish_results, resetMonthPoints]
  · have hsort := List.perm_insertionSort (fun a b : MLRow => b.points ≤ a.points) ml
    exact hsort.subset (List.take_subset 10 _ hr)
  · have hsort := List.perm_insertionSort (fun a b : MLRow => b.points ≤ a.points) ml
    simp [admin_publish_results, monthTop10, List.length_take, hsort.length_eq]
  · have hsort := List.perm_insertionSort (fun a b : MLRow => b.points ≤ a.points) ml
    have hlen2 : (List.insertionSort (fun a b : MLRow => b.points ≤ a.points) ml).length ≤ 10 :=
      hsort.length_eq ▸ hlen
    simp only [admin_publish_results, monthTop10, List.take_of_length_le hlen2]
    exact hsort.symm.subset hr

/-- Witness for C7 amended: on a two-row board the snapshot is the full
board (the second row is in it), and the reset zeroes its points. -/
theorem publish_reset_props_witness :
    (⟨2, none, none, 3⟩ : MLRow) ∈
      (admin_publish_results [⟨1, none, none, 7⟩, ⟨2, none, none, 3⟩]).1
    ∧ (∀ r ∈ (admin_publish_results [⟨1, none, none, 7⟩,
        (⟨2, none, none, 3⟩ : MLRow)]).2, r.points = 0) :=
  ⟨publish_reset_props.2.2.2.2.2 [⟨1, none, none, 7⟩, ⟨2, none, none, 3⟩]
      (by decide) ⟨2, none, none, 3⟩ (by decide),
    fun r hr => publish_reset_props.1 [⟨1, none, none, 7⟩, ⟨2, none, none, 3⟩] r hr⟩

/-- The slot upsert of `process_new_match`: `INSERT INTO matches
(match_index, match_name, result) VALUES ($1, $2, NULL) ON CONFLICT
(match_index) DO UPDATE SET match_name = EXCLUDED.match_name,
result = NULL` — an existing slot gets the new name and an unset
result, a missing slot is created with an unset result. -/
def upsertMatch (ms : List MatchRow) (idx : Int) (name : String) : List MatchRow :=
  if ms.any (fun m => m.match_index == idx) then
    ms.map (fun m => if m.match_index == idx then ⟨idx, name, none⟩ else m)
  else ms ++ [⟨idx, name, none⟩]

/-- The `DELETE FROM forecasts WHERE week=$1` of `clear_forecasts`. -/
def clear_forecasts (week : Int) (fs : List ForecastRow) : List ForecastRow :=
  fs.filter (fun f => f.week != week)

/-- The operator's new-slate dialog (`admin_new_matches` /
`process_new_match`): starting at slot index `idx`, each entered name
upserts its slot with an unset result; while `idx < 10` the dialog
advances to the next slot, and on the tenth slot it finishes and clears
the forecasts of the current week.  The state is the pair
(matches table, forecasts table). -/
def newMatchesRun (week : Int) :
    Int → List String → List MatchRow × List ForecastRow →
    List MatchRow × List ForecastRow
  | _, [], st => st
  | idx, name :: rest, (ms, fs) =>
    let ms2 := upsertMatch ms idx name
    if idx < 10 then newMatchesRun week (idx + 1) rest (ms2, fs)
    else (ms2, clear_forecasts week fs)

lemma upsertMatch_result {ms : List MatchRow} {idx : Int} {name : String}
    (inv : ∀ m ∈ ms, 1 ≤ m.match_index → m.match_index < idx → m.result = none) :
    ∀ m ∈ upsertMatch ms idx name,
      1 ≤ m.match_index → m.match_index < idx + 1 → m.result = none := by
  intro m hm h1 h2
  unfold upsertMatch at hm
  split at hm
  · rcases List.mem_map.mp hm with ⟨m0, hm0, hup⟩
    by_cases he : m0.match_index == idx
    · rw [if_pos he] at hup
      rw [← hup]
    · rw [if_neg he] at hup
      rw [← hup] at h1 h2 ⊢
      have hne : m0.match_index ≠ idx := by simpa using he
      exact inv m0 hm0 h1 (by omega)
  · rcases List.mem_append.mp hm with h | h
    · rename_i hany
      have hne : m.match_index ≠ idx := by
        intro hx
        exact hany (by simp only [List.any_eq_true, beq_iff_eq]; exact ⟨m, h, hx⟩)
      exact inv m h h1 (by omega)
    · simp only [List.mem_singleton] at h
      rw [h]

lemma newMatchesRun_cons_lt {week idx : Int} {name : String} {rest : List String}
    {ms : List MatchRow} {fs : List ForecastRow} (h : idx < 10) :
    newMatchesRun week idx (name :: rest) (ms, fs)
      = newMatchesRun week (idx + 1) rest (upsertMatch ms idx name, fs) := by
  simp [newMatchesRun, h]

lemma newMatchesRun_cons_ge {week idx : Int} {name : String} {rest : List String}
    {ms : List MatchRow} {fs : List ForecastRow} (h : ¬ idx < 10) :
    newMatchesRun week idx (name :: rest) (ms, fs)
      = (upsertMatch ms idx name, clear_forecasts week fs) := by
  simp [newMatchesRun, h]

lemma newMatchesRun_early (week : Int) (names : List String) :
    ∀ (idx : Int) (ms : List MatchRow) (fs : List ForecastRow),
      1 ≤ idx → idx + names.length ≤ 10 →
      (newMatchesRun week idx names (ms, fs)).2 = fs := by
  induction names with
  | nil => intro idx ms fs _ _; rfl
  | cons name rest ih =>
    intro idx ms fs h1 h2
    simp only [List.length_cons] at h2
    have hlt : idx < 10 := by omega
    rw [newMatchesRun_cons_lt hlt]
    exact ih (idx + 1) _ fs (by omega) (by push_cast at h2 ⊢; omega)

lemma newMatchesRun_full (week : Int) (names : List String) :
    ∀ (idx : Int) (ms : List MatchRow) (fs : List ForecastRow),
      1 ≤ idx → idx + names.length = 11 → names ≠ [] →
      (∀ m ∈ ms, 1 ≤ m.match_index → m.match_index < idx → m.result = none) →
      (newMatchesRun week idx names (ms, fs)).2 = clear_forecasts week fs
      ∧ ∀ m ∈ (newMatchesRun week idx names (ms, fs)).1,
          1 ≤ m.match_index → m.match_index ≤ 10 → m.result = none := by
  induction names with
  | nil =>
    intro idx ms fs h1 h2 hne
    exact absurd rfl hne
  | cons name rest ih =>
    intro idx ms fs h1 h2 _ inv
    simp only [List.length_cons] at h2
    cases rest with
    | nil =>
      have hidx : idx = 10 := by simp only [List.length_nil] at h2; omega
      subst hidx
      rw [newMatchesRun_cons_ge (by omega)]
      refine ⟨rfl, fun m hm hm1 hm2 => ?_⟩
      exact upsertMatch_result inv m hm hm1 (by omega)
    | cons n2 r2 =>
      have hlt : idx < 10 := by simp only [List.length_cons] at h2; omega
      rw [newMatchesRun_cons_lt hlt]
      refine ih (idx + 1) (upsertMatch ms idx name) fs (by omega) ?_
        (by simp) (upsertMatch_result inv)
      simp only [List.length_cons] at h2 ⊢
      push_cast at h2 ⊢
      omega

/-- C8: running the new-slate dialog from slot 1 with all ten names
deletes exactly the forecasts of the current week; with fewer than ten
names entered the forecasts are untouched (the deletion happens only
after all ten names are replaced); and after the full run every slot
1..10 of the matches table has an unset result. -/
theorem new_slate_reset :
    (∀ (week : Int) (names : List String) (ms : List MatchRow) (fs : List ForecastRow),
      names.length = 10 →
      (newMatchesRun week 1 names (ms, fs)).2 = clear_forecasts week fs)
    ∧ (∀ (week : Int) (names : List String) (ms : List MatchRow) (fs : List ForecastRow),
      names.length = 10 →
      ∀ f ∈ (newMatchesRun week 1 names (ms, fs)).2, ¬ f.week = week)
    ∧ (∀ (week : Int) (names : List String) (ms : List MatchRow) (fs : List ForecastRow),
      names.length < 10 →
      (newMatchesRun week 1 names (ms, fs)).2 = fs)
    ∧ (∀ (week : Int) (names : List String) (ms : List MatchRow) (fs : List ForecastRow),
      names.length = 10 →
      ∀ m ∈ (newMatchesRun week 1 names (ms, fs)).1,
        1 ≤ m.match_index → m.match_index ≤ 10 → m.result = none) := by
  have hfull : ∀ (week : Int) (names : List String) (ms : List MatchRow)
      (fs : List ForecastRow), names.length = 10 →
      (newMatchesRun week 1 names (ms, fs)).2 = clear_forecasts week fs
      ∧ ∀ m ∈ (newMatchesRun week 1 names (ms, fs)).1,
          1 ≤ m.match_index → m.match_index ≤ 10 → m.result = none := by
    intro week names ms fs hlen
    refine newMatchesRun_full week names 1 ms fs (by omega) (by omega)
      (by rintro rfl; simp at hlen) (fun m _ hm1 hm2 => ?_)
    omega
  refine ⟨fun week names ms fs hlen => (hfull week names ms fs hlen).1,
    fun week names ms fs hlen f hf => ?_,
    fun week names ms fs hlen => newMatchesRun_early week names 1 ms fs (by omega) (by omega),
    fun week names ms fs hlen => (hfull week names ms fs hlen).2⟩
  rw [(hfull week names ms fs hlen).1] at hf
  simp only [clear_forecasts, List.mem_filter, bne_iff_ne, ne_eq] at hf
  exact hf.2

/-- Witness for C8: a full ten-name run on a one-match, two-forecast
state removes the current week's forecast, keeps the other week's one,
and leaves slot 1 with an unset result. -/
theorem new_slate_reset_witness :
    (newMatchesRun 14 1 ["a", "b", "c", "d", "e", "f", "g", "h", "i", "j"]
        ([⟨1, "old", some "2-1"⟩], [⟨7, 14, 1, "2-1"⟩, ⟨7, 13, 1, "0-0"⟩])).2
      = clear_forecasts 14 [⟨7, 14, 1, "2-1"⟩, ⟨7, 13, 1, "0-0"⟩] :=
  new_slate_reset.1 14 ["a", "b", "c", "d", "e", "f", "g", "h", "i", "j"]
    [⟨1, "old", some "2-1"⟩] [⟨7, 14, 1, "2-1"⟩, ⟨7, 13, 1, "0-0"⟩] rfl

/-- Generic model of a SQL `UPDATE ... WHERE key = t`: apply `f` to
every row whose key is `t`. -/
def keyedUpdate (k : α → Int) (t : Int) (f : α → α) (l : List α) : List α :=
  l.map (fun x => if k x == t then f x else x)

/-- Sum of the `v`-column over the rows whose key is `t` (the value a
`SELECT v WHERE key = t` observes; with unique keys, the single row's
value, and `0` when no row exists). -/
def rowSum (k v : α → Int) (t : Int) (l : List α) : Int :=
  ((l.filter (fun x => k x == t)).map v).sum

/-- Sum of the `v`-column over the whole table. -/
def rowTotal (v : α → Int) (l : List α) : Int := (l.map v).sum

lemma keyedUpdate_map_key {k : α → Int} {f : α → α}
    (hk : ∀ x, k (f x) = k x) (t : Int) (l : List α) :
    (keyedUpdate k t f l).map k = l.map k := by
  induction l with
  | nil => rfl
  | cons a rest ih =>
    simp only [keyedUpdate, List.map_cons] at ih ⊢
    rw [ih]
    by_cases h : k a == t <;> simp [h, hk]

lemma keyedUpdate_id {k : α → Int} {f : α → α} {t : Int} {l : List α}
    (h : t ∉ l.map k) : keyedUpdate k t f l = l := by
  induction l with
  | nil => rfl
  | cons a rest ih =>
    simp only [List.map_cons, List.mem_cons, not_or] at h
    have ha : ¬ (k a == t) := by
      simp only [beq_iff_eq]
      exact fun hh => h.1 hh.symm
    simp only [keyedUpdate, List.map_cons, if_neg ha]
    rw [show rest.map (fun x => if k x == t then f x else x) = keyedUpdate k t f rest from rfl,
      ih h.2]

lemma rowSum_zero {k v : α → Int} {t : Int} {l : List α}
    (h : t ∉ l.map k) : rowSum k v t l = 0 := by
  induction l with
  | nil => rfl
  | cons a rest ih =>
    simp only [List.map_cons, List.mem_cons, not_or] at h
    have ha : ¬ (k a == t) := by
      simp only [beq_iff_eq]
      exact fun hh => h.1 hh.symm
    simp only [rowSum, List.filter_cons, if_neg ha]
    exact ih h.2

lemma rowSum_cons (k v : α → Int) (t : Int) (a : α) (l : List α) :
    rowSum k v t (a :: l) = (if k a == t then v a else 0) + rowSum k v t l := by
  by_cases h : k a == t <;> simp [rowSum, List.filter_cons, h]

lemma rowSum_append_single (k v : α → Int) (t : Int) (l : List α) (x : α) :
    rowSum k v t (l ++ [x]) = rowSum k v t l + (if k x == t then v x else 0) := by
  by_cases h : k x == t <;> simp [rowSum, List.filter_append, h]

lemma rowTotal_append_single (v : α → Int) (l : List α) (x : α) :
    rowTotal v (l ++ [x]) = rowTotal v l + v x := by
  simp [rowTotal]

lemma rowSum_keyedUpdate {k v : α → Int} {f : α → α} {p : Int}
    (hk : ∀ x, k (f x) = k x) (hv : ∀ x, v (f x) = v x + p)
    {t2 : Int} {l : List α} (hnd : (l.map k).Nodup) (hmem : t2 ∈ l.map k) :
    ∀ t : Int, rowSum k v t (keyedUpdate k t2 f l)
      = rowSum k v t l + (if t = t2 then p else 0) := by
  induction l with
  | nil => simp at hmem
  | cons a rest ih =>
    intro t
    simp only [List.map_cons, List.nodup_cons] at hnd
    by_cases ha : k a == t2
    · have ha2 : k a = t2 := by simpa using ha
      have hrest : t2 ∉ rest.map k := ha2 ▸ hnd.1
      simp only [keyedUpdate, List.map_cons, if_pos ha]
      rw [show rest.map (fun x => if k x == t2 then f x else x)
            = keyedUpdate k t2 f rest from rfl, keyedUpdate_id hrest]
      rw [rowSum_cons, rowSum_cons]
      by_cases ht : t = t2
      · subst ht
        rw [rowSum_zero hrest]
        have : k (f a) == t := by simp [hk, ha2]
        rw [if_pos this, if_pos ha, hv]
        omega
      · have h1 : ¬ (k (f a) == t) := by simp [hk, ha2]; omega
        have h2 : ¬ (k a == t) := by simp [ha2]; omega
        rw [if_neg h1, if_neg h2, if_neg ht]
        omega
    · have hmem2 : t2 ∈ rest.map k := by
        rcases List.mem_cons.mp hmem with h | h
        · exact absurd (by simp [h]) ha
        · exact h
      simp only [keyedUpdate, List.map_cons, if_neg ha]
      rw [show rest.map (fun x => if k x == t2 then f x else x)
            = keyedUpdate k t2 f rest from rfl]
      rw [rowSum_cons, rowSum_cons, ih hnd.2 hmem2 t]
      omega

lemma rowTotal_keyedUpdate {k v : α → Int} {f : α → α} {p : Int}
    (hv : ∀ x, v (f x) = v x + p)
    {t2 : Int} {l : List α} (hnd : (l.map k).Nodup) (hmem : t2 ∈ l.map k) :
    rowTotal v (keyedUpdate k t2 f l) = rowTotal v l + p := by
  induction l with
  | nil => simp at hmem
  | cons a rest ih =>
    simp only [List.map_cons, List.nodup_cons] at hnd
    by_cases ha : k a == t2
    · have ha2 : k a = t2 := by simpa using ha
      have hrest : t2 ∉ rest.map k := ha2 ▸ hnd.1
      simp only [keyedUpdate, List.map_cons, if_pos ha]
      rw [show rest.map (fun x => if k x == t2 then f x else x)
            = keyedUpdate k t2 f rest from rfl, keyedUpdate_id hrest]
      simp only [rowTotal, List.map_cons, List.sum_cons, hv]
      omega
    · have hmem2 : t2 ∈ rest.map k := by
        rcases List.mem_cons.mp hmem with h | h
        · exact absurd (by simp [h]) ha
        · exact h
      simp only [keyedUpdate, List.map_cons, if_neg ha]
      rw [show rest.map (fun x => if k x == t2 then f x else x)
            = keyedUpdate k t2 f rest from rfl]
      simp only [rowTotal, List.map_cons, List.sum_cons] at ih ⊢
      rw [ih hnd.2 hmem2]
      omega

/-- The `SELECT result FROM matches WHERE match_index=$1` lookup of
`calculate_points`. -/
def matchResult (ms : List MatchRow) (idx : Int) : Option String :=
  (ms.find? (fun m => m.match_index == idx)).bind (fun m => m.result)

/-- The `UPDATE users SET points = points + $1 WHERE telegram_id=$2` of
`calculate_points`. -/
def addUserPoints (users : List UserRow) (t p : Int) : List UserRow :=
  keyedUpdate (fun u => u.telegram_id) t
    (fun u => { u with points := u.points + p }) users

/-- The monthly-board write of `calculate_points`: `UPDATE monthleaders
SET points = points + $1, nickname = $2 WHERE telegram_id=$3` when a
row for the participant exists, otherwise `INSERT INTO monthleaders
(telegram_id, name, nickname, points)` with the participant's name and
nickname read from `users` and the freshly computed points. -/
def updateML (ml : List MLRow) (users : List UserRow) (t p : Int) : List MLRow :=
  let urow := users.find? (fun u => u.telegram_id == t)
  if ml.any (fun r => r.telegram_id == t) then
    keyedUpdate (fun r => r.telegram_id) t
      (fun r => { r with points := r.points + p,
                         nickname := urow.bind (fun u => u.nickname) }) ml
  else ml ++ [⟨t, urow.map (fun u => u.name), urow.bind (fun u => u.nickname), p⟩]

/-- One iteration of the `calculate_points` loop for one forecast row:
look up the match result; when it is present and non-empty (`if match
and match["result"]`), compute the points and apply them to the users
table and the monthly board; otherwise leave the state unchanged. -/
def applyForecast (ms : List MatchRow) (st : List UserRow × List MLRow)
    (f : ForecastRow) : List UserRow × List MLRow :=
  match matchResult ms f.match_index with
  | some r =>
    if r = "" then st
    else
      let p := compute_points r f.forecast
      let users2 := addUserPoints st.1 f.telegram_id p
      (users2, updateML st.2 users2 f.telegram_id p)
  | none => st

/-- The recompute pass `calculate_points`: fetch every forecast of the
current week and fold the per-forecast update over the users table and
the monthly board; returns the two updated tables. -/
def calculate_points (week : Int) (users : List UserRow) (fs : List ForecastRow)
    (ms : List MatchRow) (ml : List MLRow) : List UserRow × List MLRow :=
  (fs.filter (fun f => f.week == week)).foldl (applyForecast ms) (users, ml)

/-- The all-time point total the `users` table stores for participant
`t` (sum over the rows keyed `t`; the single row's value under the
`UNIQUE` key). -/
def userPoints (users : List UserRow) (t : Int) : Int :=
  rowSum (fun u => u.telegram_id) (fun u => u.points) t users

/-- The monthly point total the `monthleaders` table stores for
participant `t` (`0` when no row exists yet). -/
def mlPoints (ml : List MLRow) (t : Int) : Int :=
  rowSum (fun r => r.telegram_id) (fun r => r.points) t ml

/-- Grand total of the `points` column of the `users` table. -/
def totalUserPoints (users : List UserRow) : Int :=
  rowTotal (fun u => u.points) users

/-- Grand total of the `points` column of the `monthleaders` table. -/
def totalMLPoints (ml : List MLRow) : Int :=
  rowTotal (fun r => r.points) ml

/-- The score `compute_points(actual, predicted)` of one forecast row
against the stored result of its match slot (`""` standing in for a
missing result; the claims only use this under the hypothesis that the
result is present and non-empty). -/
def scoreOf (ms : List MatchRow) (f : ForecastRow) : Int :=
  compute_points ((matchResult ms f.match_index).getD "") f.forecast

lemma keyedUpdate_nodup {k : α → Int} {f : α → α} (hk : ∀ x, k (f x) = k x)
    {t : Int} {l : List α} (hnd : (l.map k).Nodup) :
    ((keyedUpdate k t f l).map k).Nodup := by
  rw [keyedUpdate_map_key hk]
  exact hnd

lemma addUserPoints_points {users : List UserRow} {t2 p : Int}
    (hnd : (users.map (fun u => u.telegram_id)).Nodup)
    (hmem : t2 ∈ users.map (fun u => u.telegram_id)) (t : Int) :
    userPoints (addUserPoints users t2 p) t
      = userPoints users t + (if t = t2 then p else 0) := by
  unfold userPoints addUserPoints
  refine rowSum_keyedUpdate ?_ ?_ hnd hmem t <;> exact fun _ => rfl

lemma addUserPoints_total {users : List UserRow} {t2 p : Int}
    (hnd : (users.map (fun u => u.telegram_id)).Nodup)
    (hmem : t2 ∈ users.map (fun u => u.telegram_id)) :
    totalUserPoints (addUserPoints users t2 p) = totalUserPoints users + p := by
  unfold totalUserPoints addUserPoints
  refine rowTotal_keyedUpdate ?_ hnd hmem
  exact fun _ => rfl

lemma addUserPoints_map_key (users : List UserRow) (t2 p : Int) :
    (addUserPoints users t2 p).map (fun u => u.telegram_id)
      = users.map (fun u => u.telegram_id) := by
  unfold addUserPoints
  refine keyedUpdate_map_key ?_ t2 users
  exact fun _ => rfl

lemma updateML_mem_of_any {ml : List MLRow} {t2 : Int}
    (hany : ml.any (fun r => r.telegram_id == t2) = true) :
    t2 ∈ ml.map (fun r => r.telegram_id) := by
  simp only [List.any_eq_true, beq_iff_eq] at hany
  rcases hany with ⟨r, hr, hrt⟩
  exact List.mem_map.mpr ⟨r, hr, hrt⟩

lemma updateML_points {ml : List MLRow} {users : List UserRow} {t2 p : Int}
    (hnd : (ml.map (fun r => r.telegram_id)).Nodup) (t : Int) :
    mlPoints (updateML ml users t2 p) t
      = mlPoints ml t + (if t = t2 then p else 0) := by
  unfold updateML
  dsimp only
  split
  · refine rowSum_keyedUpdate ?_ ?_ hnd (updateML_mem_of_any (by assumption)) t <;>
      exact fun _ => rfl
  · rw [mlPoints, mlPoints, rowSum_append_single]
    by_cases ht : t = t2
    · subst ht
      rw [if_pos rfl, if_pos (by simp)]
    · rw [if_neg ht, if_neg (by simp only [beq_iff_eq]; exact fun hh => ht hh.symm)]

lemma updateML_total {ml : List MLRow} {users : List UserRow} {t2 p : Int}
    (hnd : (ml.map (fun r => r.telegram_id)).Nodup) :
    totalMLPoints (updateML ml users t2 p) = totalMLPoints ml + p := by
  unfold updateML
  dsimp only
  split
  · refine rowTotal_keyedUpdate ?_ hnd (updateML_mem_of_any (by assumption))
    exact fun _ => rfl
  · rw [totalMLPoints, totalMLPoints, rowTotal_append_single]

lemma updateML_nodup {ml : List MLRow} {users : List UserRow} {t2 p : Int}
    (hnd : (ml.map (fun r => r.telegram_id)).Nodup) :
    ((updateML ml users t2 p).map (fun r => r.telegram_id)).Nodup := by
  unfold updateML
  dsimp only
  split
  · refine keyedUpdate_nodup ?_ hnd
    exact fun _ => rfl
  · rename_i hany
    have hnot : t2 ∉ ml.map (fun r => r.telegram_id) := by
      intro hmem
      rcases List.mem_map.mp hmem with ⟨r, hr, hrt⟩
      exact hany (by simp only [List.any_eq_true, beq_iff_eq]; exact ⟨r, hr, hrt⟩)
    simp [List.nodup_append, hnd, hnot]

lemma calc_fold (ms : List MatchRow) (fs : List ForecastRow) :
    ∀ (users : List UserRow) (ml : List MLRow),
    (∀ f ∈ fs, ∃ r, matchResult ms f.match_index = some r ∧ r ≠ "") →
    (users.map (fun u => u.telegram_id)).Nodup →
    (∀ f ∈ fs, f.telegram_id ∈ users.map (fun u => u.telegram_id)) →
    (ml.map (fun r => r.telegram_id)).Nodup →
    (∀ t, userPoints (fs.foldl (applyForecast ms) (users, ml)).1 t
        = userPoints users t
          + ((fs.filter (fun f => f.telegram_id == t)).map (scoreOf ms)).sum)
    ∧ (∀ t, mlPoints (fs.foldl (applyForecast ms) (users, ml)).2 t
        = mlPoints ml t
          + ((fs.filter (fun f => f.telegram_id == t)).map (scoreOf ms)).sum)
    ∧ totalUserPoints (fs.foldl (applyForecast ms) (users, ml)).1
        = totalUserPoints users + (fs.map (scoreOf ms)).sum
    ∧ totalMLPoints (fs.foldl (applyForecast ms) (users, ml)).2
        = totalMLPoints ml + (fs.map (scoreOf ms)).sum := by
  induction fs with
  | nil => intro users ml _ _ _ _; simp
  | cons f rest ih =>
    intro users ml hres hnd hmem hml
    obtain ⟨r, hr, hrne⟩ := hres f (List.mem_cons_self f rest)
    have hscore : scoreOf ms f = compute_points r f.forecast := by
      rw [scoreOf, hr]
      rfl
    have happly : applyForecast ms (users, ml) f
        = (addUserPoints users f.telegram_id (compute_points r f.forecast),
           updateML ml (addUserPoints users f.telegram_id (compute_points r f.forecast))
             f.telegram_id (compute_points r f.forecast)) := by
      simp [applyForecast, hr, hrne]
    set p := compute_points r f.forecast with hpd
    set users2 := addUserPoints users f.telegram_id p with hu2
    set ml2 := updateML ml users2 f.telegram_id p with hm2
    have hmemf : f.telegram_id ∈ users.map (fun u => u.telegram_id) :=
      hmem f (List.mem_cons_self f rest)
    have hkeys : users2.map (fun u => u.telegram_id)
        = users.map (fun u => u.telegram_id) := addUserPoints_map_key users _ p
    have hnd2 : (users2.map (fun u => u.telegram_id)).Nodup := hkeys ▸ hnd
    have hml2 : (ml2.map (fun r => r.telegram_id)).Nodup := updateML_nodup hml
    obtain ⟨ih1, ih2, ih3, ih4⟩ := ih users2 ml2
      (fun g hg => hres g (List.mem_cons_of_mem f hg))
      hnd2
      (fun g hg => hkeys ▸ hmem g (List.mem_cons_of_mem f hg))
      hml2
    have hstep : ∀ t : Int,
        (if f.telegram_id == t then scoreOf ms f else 0) = (if t = f.telegram_id then p else 0) := by
      intro t
      by_cases ht : t = f.telegram_id
      · subst ht
        rw [if_pos (by simp), if_pos rfl, hscore]
      · rw [if_neg ht, if_neg (by simp only [beq_iff_eq]; exact fun hh => ht hh.symm)]
    refine ⟨fun t => ?_, fun t => ?_, ?_, ?_⟩
    · rw [List.foldl_cons, happly, ih1 t,
        addUserPoints_points hnd hmemf t, List.filter_cons]
      by_cases hft : f.telegram_id == t
      · rw [if_pos hft, List.map_cons, List.sum_cons, ← hstep t, if_pos hft]
        omega
      · rw [if_neg hft]
        have := hstep t
        rw [if_neg hft] at this
        rw [← this]
        omega
    · rw [List.foldl_cons, happly, ih2 t,
        updateML_points hml t, List.filter_cons]
      by_cases hft : f.telegram_id == t
      · rw [if_pos hft, List.map_cons, List.sum_cons, ← hstep t, if_pos hft]
        omega
      · rw [if_neg hft]
        have := hstep t
        rw [if_neg hft] at this
        rw [← this]
        omega
    · rw [List.foldl_cons, happly, ih3, addUserPoints_total hnd hmemf,
        List.map_cons, List.sum_cons, hscore]
      omega
    · rw [List.foldl_cons, happly, ih4, updateML_total hml,
        List.map_cons, List.sum_cons, hscore]
      omega

/-- C4: one run of `calculate_points` (on a state where every forecast
of the current week has a stored, non-empty match result, participants
are registered, and the `UNIQUE telegram_id` constraints hold) adds
each prediction's score once to the predicting participant's all-time
total and once to that participant's monthly total (creating the
monthly row if absent with that score as its initial points), and the
total delta across all participants on each ledger equals the sum of
`score(actual_i, predicted_i)` over all predictions of the round — no
double counting, no loss. -/
theorem calculate_points_deltas (week : Int) (users : List UserRow)
    (fs : List ForecastRow) (ms : List MatchRow) (ml : List MLRow)
    (hres : ∀ f ∈ fs, f.week = week →
      ∃ r, matchResult ms f.match_index = some r ∧ r ≠ "")
    (hnd : (users.map (fun u => u.telegram_id)).Nodup)
    (hmem : ∀ f ∈ fs, f.week = week →
      f.telegram_id ∈ users.map (fun u => u.telegram_id))
    (hml : (ml.map (fun r => r.telegram_id)).Nodup) :
    (∀ t : Int, userPoints (calculate_points week users fs ms ml).1 t
        = userPoints users t
          + ((fs.filter (fun f => f.telegram_id == t && f.week == week)).map
              (scoreOf ms)).sum)
    ∧ (∀ t : Int, mlPoints (calculate_points week users fs ms ml).2 t
        = mlPoints ml t
          + ((fs.filter (fun f => f.telegram_id == t && f.week == week)).map
              (scoreOf ms)).sum)
    ∧ totalUserPoints (calculate_points week users fs ms ml).1
        = totalUserPoints users
          + ((fs.filter (fun f => f.week == week)).map (scoreOf ms)).sum
    ∧ totalMLPoints (calculate_points week users fs ms ml).2
        = totalMLPoints ml
          + ((fs.filter (fun f => f.week == week)).map (scoreOf ms)).sum := by
  obtain ⟨h1, h2, h3, h4⟩ := calc_fold ms (fs.filter (fun f => f.week == week)) users ml
    (fun f hf => hres f (List.mem_filter.mp hf).1
      (by simpa using (List.mem_filter.mp hf).2))
    hnd
    (fun f hf => hmem f (List.mem_filter.mp hf).1
      (by simpa using (List.mem_filter.mp hf).2))
    hml
  refine ⟨fun t => ?_, fun t => ?_, h3, h4⟩
  · rw [show calculate_points week users fs ms ml
        = (fs.filter (fun f => f.week == week)).foldl (applyForecast ms) (users, ml)
        from rfl, h1 t, List.filter_filter]
  · rw [show calculate_points week users fs ms ml
        = (fs.filter (fun f => f.week == week)).foldl (applyForecast ms) (users, ml)
        from rfl, h2 t, List.filter_filter]

/-- Witness for C4: one registered participant, one forecast `"2-1"` on
a match whose stored result is `"2-1"`, empty monthly board: the
participant's all-time total after recompute is `0 + 5 = 5`. -/
theorem calculate_points_deltas_witness :
    userPoints (calculate_points 14 [⟨1, "A", none, 0⟩] [⟨1, 14, 1, "2-1"⟩]
      [⟨1, "M", some "2-1"⟩] []).1 1 = 5 := by
  have h := (calculate_points_deltas 14 [⟨1, "A", none, 0⟩] [⟨1, 14, 1, "2-1"⟩]
      [⟨1, "M", some "2-1"⟩] []
      (by
        intro f hf hw
        rw [List.mem_singleton] at hf
        subst hf
        exact ⟨"2-1", rfl, by decide⟩)
      (by decide)
      (by
        intro f hf hw
        rw [List.mem_singleton] at hf
        subst hf
        decide)
      (by decide)).1 1
  rw [h]
  decide
